import Mathlib

/-!
Shallow embedding of the libops/cap scrape-parse-filter-register pipeline
(`scraper/scraper.go`, `config/config.go`) together with the scheduling loop,
and theorems checking the specification's claims against it.

Modelling conventions:
* Go `float64` sample values are modelled as `Rat` (the claims only involve
  ordered-field comparisons on finite decimal values).
* Go maps (`map[string]export.MetricMetadata`, `map[storage.SeriesRef]labels.Labels`)
  are modelled as functions into `Option`, with pointwise overwrite on insert.
* The external Prometheus text parser (`textparse`) is modelled at its
  interface: a payload either fails to initialize (`textparse.New` error) or
  yields the stream of `tp.Next()` outcomes, where a `none` element marks
  `EntryInvalid` or a parse error (the loop in `ProcessBody` breaks there).
* `labels.New`/`tp.Metric` canonicalize a label list by sorting (the parser
  rejects duplicate label names, so sorting by the whole pair is extensionally
  the library's sort-by-name); `labels.Hash` (xxhash64 of the sorted
  name/value byte sequence with 0xff separators) is modelled by a rolling
  64-bit content hash of the same byte sequence.
* The compiled inclusion regexp is modelled by its matching function
  `String → Bool` (`regexp.Regexp.MatchString`).
-/

namespace Cap

/-- One label pair, as in `labels.Label {Name, Value}`. -/
abbrev Label := String × String

/-- A label set, as in `labels.Labels`. -/
abbrev Labels := List Label

/-- Lexicographic comparison of two character lists (`x ≤ y`), written as an
executable Boolean so that sorting kernel-evaluates on concrete payloads. -/
def charsLe : List Char → List Char → Bool
  | [], _ => true
  | _ :: _, [] => false
  | c :: cs, d :: ds => if c = d then charsLe cs ds else decide (c < d)

/-- Comparison of two label pairs: by name, ties broken by value. -/
def labelLeB (a b : Label) : Bool :=
  if a.1.data = b.1.data then charsLe a.2.data b.2.data
  else charsLe a.1.data b.1.data

/-- The order used to canonicalize label sets: lexicographic on (name, value).
On label sets with pairwise-distinct names (the only ones the text parser
produces) it coincides with the library's sort-by-name. -/
def labelLe (a b : Label) : Prop :=
  labelLeB a b = true

instance : DecidableRel labelLe := fun a b =>
  inferInstanceAs (Decidable (labelLeB a b = true))

instance : IsTotal Label labelLe := by
  constructor
  have htot : ∀ x y : List Char, charsLe x y = true ∨ charsLe y x = true := by
    intro x
    induction x with
    | nil => intro y; exact Or.inl rfl
    | cons c cs ih =>
      intro y
      cases y with
      | nil => exact Or.inr rfl
      | cons d ds =>
        by_cases hcd : c = d
        · subst hcd
          rcases ih ds with h | h
          · exact Or.inl (by simp [charsLe, h])
          · exact Or.inr (by simp [charsLe, h])
        · rcases lt_or_gt_of_ne hcd with hlt | hgt
          · exact Or.inl (by simp [charsLe, hcd, hlt])
          · exact Or.inr (by simp [charsLe, Ne.symm hcd, hgt])
  intro a b
  unfold labelLe labelLeB
  by_cases hn : a.1.data = b.1.data
  · rw [if_pos hn, if_pos hn.symm]
    exact htot _ _
  · rw [if_neg hn, if_neg (fun h => hn h.symm)]
    exact htot _ _

instance : IsTrans Label labelLe := by
  constructor
  have hanti : ∀ x y : List Char, charsLe x y = true → charsLe y x = true → x = y := by
    intro x
    induction x with
    | nil =>
      intro y h1 h2
      cases y with
      | nil => rfl
      | cons d ds => simp [charsLe] at h2
    | cons c cs ih =>
      intro y h1 h2
      cases y with
      | nil => simp [charsLe] at h1
      | cons d ds =>
        by_cases hcd : c = d
        · subst hcd
          simp [charsLe] at h1 h2
          rw [ih ds h1 h2]
        · have hdc : ¬ d = c := fun h => hcd h.symm
          simp [charsLe, hcd] at h1
          simp [charsLe, hdc] at h2
          exact absurd h2 (lt_asymm h1)
  have htr : ∀ x y z : List Char,
      charsLe x y = true → charsLe y z = true → charsLe x z = true := by
    intro x
    induction x with
    | nil => intro y z _ _; rfl
    | cons c cs ih =>
      intro y z h1 h2
      cases y with
      | nil => simp [charsLe] at h1
      | cons d ds =>
        cases z with
        | nil => simp [charsLe] at h2
        | cons e es =>
          by_cases hcd : c = d
          · subst hcd
            by_cases hce : c = e
            · subst hce
              simp [charsLe] at h1 h2 ⊢
              exact ih ds es h1 h2
            · simp [charsLe, hce] at h2 ⊢
              exact h2
          · by_cases hde : d = e
            · subst hde
              simp [charsLe, hcd] at h1 ⊢
              exact h1
            · simp [charsLe, hcd] at h1
              simp [charsLe, hde] at h2
              have hce : c < e := lt_trans h1 h2
              simp [charsLe, ne_of_lt hce]
              exact hce
  intro a b c h1 h2
  unfold labelLe labelLeB at h1 h2 ⊢
  by_cases hab : a.1.data = b.1.data
  · by_cases hbc : b.1.data = c.1.data
    · have hac : a.1.data = c.1.data := hab.trans hbc
      rw [if_pos hab] at h1
      rw [if_pos hbc] at h2
      rw [if_pos hac]
      exact htr _ _ _ h1 h2
    · have hac : ¬ a.1.data = c.1.data := fun h => hbc (hab.symm.trans h)
      rw [if_neg hbc] at h2
      rw [if_neg hac, hab]
      exact h2
  · by_cases hbc : b.1.data = c.1.data
    · have hac : ¬ a.1.data = c.1.data := fun h => hab (h.trans hbc.symm)
      rw [if_neg hab] at h1
      rw [if_neg hac, ← hbc]
      exact h1
    · rw [if_neg hab] at h1
      rw [if_neg hbc] at h2
      by_cases hac : a.1.data = c.1.data
      · rw [← hac] at h2
        exact absurd (hanti _ _ h1 h2) hab
      · rw [if_neg hac]
        exact htr _ _ _ h1 h2

instance : IsAntisymm Label labelLe := by
  constructor
  have hstr : ∀ s t : String, s.data = t.data → s = t := by
    intro s t h
    cases s
    cases t
    exact congrArg String.mk h
  have hanti : ∀ x y : List Char, charsLe x y = true → charsLe y x = true → x = y := by
    intro x
    induction x with
    | nil =>
      intro y h1 h2
      cases y with
      | nil => rfl
      | cons d ds => simp [charsLe] at h2
    | cons c cs ih =>
      intro y h1 h2
      cases y with
      | nil => simp [charsLe] at h1
      | cons d ds =>
        by_cases hcd : c = d
        · subst hcd
          simp [charsLe] at h1 h2
          rw [ih ds h1 h2]
        · have hdc : ¬ d = c := fun h => hcd h.symm
          simp [charsLe, hcd] at h1
          simp [charsLe, hdc] at h2
          exact absurd h2 (lt_asymm h1)
  intro a b h1 h2
  unfold labelLe labelLeB at h1 h2
  by_cases hab : a.1.data = b.1.data
  · rw [if_pos hab] at h1
    rw [if_pos hab.symm] at h2
    exact Prod.ext (hstr _ _ hab) (hstr _ _ (hanti _ _ h1 h2))
  · rw [if_neg hab] at h1
    rw [if_neg (fun h => hab h.symm)] at h2
    exact absurd (hanti _ _ h1 h2) hab

/-- Canonical form of a label list: models `labels.New`/`tp.Metric` building a
sorted `labels.Labels` out of the parsed pairs. -/
def labelsNew (ls : Labels) : Labels :=
  List.insertionSort labelLe ls

/-- `labels.Labels.Get`: the value of the label with the given name, or `""`
when absent. -/
def labelGet (ls : Labels) (n : String) : String :=
  match ls.find? (fun p => p.1 == n) with
  | some p => p.2
  | none => ""

/-- One step of the rolling 64-bit content hash over a string's characters. -/
def hashString (h : Nat) (s : String) : Nat :=
  s.data.foldl (fun a c => (a * 1099511628211 + c.toNat) % 2 ^ 64) h

/-- Models `labels.Labels.Hash()`: a 64-bit content hash of the label set's
name/value sequence with `0xff` separators (the library uses xxhash64 over the
same byte sequence). -/
def labelsHash (ls : Labels) : Nat :=
  ls.foldl
    (fun h p =>
      (hashString ((hashString h p.1 * 1099511628211 + 255) % 2 ^ 64) p.2
          * 1099511628211 + 255) % 2 ^ 64)
    14695981039346656037

/-- The series reference assigned to a parsed label list:
`ref := lset.Hash()` after `lset` has been built in canonical (sorted) form. -/
def seriesRef (ls : Labels) : Nat :=
  labelsHash (labelsNew ls)

/-- Models `labels.Labels.String()`: `{n1="v1", n2="v2"}` over the (already
canonical) label set. Escaping of special characters inside values is elided;
no claim depends on it. -/
def labelsString (ls : Labels) : String :=
  "\x7b" ++ String.intercalate ", " (ls.map (fun p => p.1 ++ "=\"" ++ p.2 ++ "\"")) ++ "\x7d"

/-- `export.MetricMetadata`, the fields `ProcessBody` uses. -/
structure MetricMetadata where
  metric : String
  typ : String
  help : String
deriving DecidableEq, Repr

/-- The zero value of `export.MetricMetadata` (`var currMeta`). -/
def MetricMetadata.zero : MetricMetadata := ⟨"", "", ""⟩

/-- `record.RefSample {Ref, V, T}`. -/
structure RefSample where
  ref : Nat
  v : Rat
  t : Int
deriving DecidableEq, Repr

/-- One `tp.Next()` outcome as consumed by `ProcessBody`'s switch:
the `textparse.Entry` kinds together with the data the code reads from the
parser for that kind. `entryType` carries the `# TYPE` line's own metric name
to record that the code discards it (`_, currMeta.Type = tp.Type()`).
`entrySeries` carries the parsed label pairs (including `__name__`), the
optional explicit timestamp and the value. -/
inductive Entry where
  | entryType (name : String) (typ : String)
  | entryHelp (name : String) (htext : String)
  | entryUnit
  | entryComment
  | entryHistogram
  | entrySeries (lset : Labels) (pts : Option Int) (v : Rat)
deriving DecidableEq, Repr

/-- Whether an entry is a `SERIES` entry. -/
def Entry.isSeries : Entry → Bool
  | .entrySeries _ _ _ => true
  | _ => false

/-- The five filter booleans of `ProcessBody` (scraper.go lines 187–195),
conjoined exactly as in the `if` condition. `metricName` is what the code
passes: `currMeta.Metric`. -/
def acceptSample (regex : String → Bool) (metricName : String) (lset : Labels)
    (val : Rat) : Bool :=
  let containerName := labelGet lset "name"
  let isLibopsContainer := "libops-".isPrefixOf containerName
  let isTasksState := metricName == "container_tasks_state"
  let isPositiveValue := decide (0 < val)
  let isCapContainer := containerName == "cap"
  let matchesRegex := regex (labelsString lset)
  !isLibopsContainer && !isTasksState && isPositiveValue && !isCapContainer && matchesRegex

/-- The state mutated by `ProcessBody`'s loop: the metadata accumulator, the
batch, the metadata index and the scraper's `labelsByRef` registry. -/
structure PState where
  currMeta : MetricMetadata
  batch : List RefSample
  metadata : String → Option MetricMetadata
  labelsByRef : Nat → Option Labels

/-- One iteration of `ProcessBody`'s loop body on a decoded entry
(scraper.go lines 156–201). `now` is `timestamp.FromTime(time.Now())`. -/
def procEntry (regex : String → Bool) (now : Int) (st : PState) (e : Entry) : PState :=
  match e with
  | .entryType _ t => { st with currMeta := { st.currMeta with typ := t } }
  | .entryHelp n h => { st with currMeta := { st.currMeta with metric := n, help := h } }
  | .entryUnit => st
  | .entryComment => st
  | .entryHistogram => st
  | .entrySeries rawLset pts val =>
    let t := pts.getD now
    let lset := labelsNew rawLset
    let ref := labelsHash lset
    let st1 : PState :=
      { st with
        metadata := fun k => if k = st.currMeta.metric then some st.currMeta else st.metadata k
        labelsByRef := fun r => if r = ref then some lset else st.labelsByRef r }
    if acceptSample regex st.currMeta.metric lset val then
      { st1 with batch := st1.batch ++ [⟨ref, val, t⟩] }
    else
      st1

/-- `ProcessBody`'s loop over the raw `tp.Next()` stream: a `none` element is
`EntryInvalid` or a parse error, on which the loop breaks. -/
def processLoop (regex : String → Bool) (now : Int) (st : PState) :
    List (Option Entry) → PState
  | [] => st
  | none :: _ => st
  | some e :: rest => processLoop regex now (procEntry regex now st e) rest

/-- Processing a list of successfully decoded entries (no break). -/
def processEntries (regex : String → Bool) (now : Int) (st : PState) :
    List Entry → PState
  | [] => st
  | e :: es => processEntries regex now (procEntry regex now st e) es

/-- The entries decoded before the truncation point of a raw stream. -/
def decodedEntries : List (Option Entry) → List Entry
  | [] => []
  | none :: _ => []
  | some e :: rest => e :: decodedEntries rest

/-- The state `ProcessBody` starts its loop from: zero `currMeta`, nil batch,
empty metadata map, and `s.labelsByRef` reset to an empty map (line 148). -/
def initState : PState :=
  ⟨MetricMetadata.zero, [], fun _ => none, fun _ => none⟩

/-- The parser-facing input of `ProcessBody`: `none` models a
`textparse.New` failure, `some stream` the stream of `tp.Next()` outcomes. -/
abbrev ParseInput := Option (List (Option Entry))

/-- `Scraper.ProcessBody`: returns the `(batch, metadata, error)` triple
(first component) and the scraper's `labelsByRef` field after the call
(second component). On a parser-initialization failure the registry is left
untouched; otherwise it is reset before the loop runs. -/
def ProcessBody (regex : String → Bool) (now : Int) (oldReg : Nat → Option Labels)
    (input : ParseInput) :
    Except String (List RefSample × (String → Option MetricMetadata)) × (Nat → Option Labels) :=
  match input with
  | none => (.error "failed to initialize text parser", oldReg)
  | some stream =>
    let st := processLoop regex now initState stream
    (.ok (st.batch, st.metadata), st.labelsByRef)

/-- `Scraper.GetLabelsByRef`: Go map lookup, zero value (`labels.Labels` nil,
i.e. the empty label set) when absent. -/
def GetLabelsByRef (reg : Nat → Option Labels) (ref : Nat) : Labels :=
  (reg ref).getD []

/-- The filter contract as the specification words it (§4.3): all five rules
hold. Rule 5 is the compiled pattern matching the string rendering of the
label set. Stated over the canonical label set and the metric name the
pipeline passes. -/
def specAccept (regex : String → Bool) (metricName : String) (lset : Labels)
    (v : Rat) : Prop :=
  ¬ ("libops-".isPrefixOf (labelGet lset "name")) ∧
  metricName ≠ "container_tasks_state" ∧
  0 < v ∧
  labelGet lset "name" ≠ "cap" ∧
  regex (labelsString lset) = true

instance (regex : String → Bool) (m : String) (lset : Labels) (v : Rat) :
    Decidable (specAccept regex m lset v) := by
  unfold specAccept; exact inferInstance

/-- Whether an entry is the histogram kind. -/
def Entry.isHistogram : Entry → Bool
  | .entryHistogram => true
  | _ => false

/-- Left-biased choice on `Option`, used to state which write wins. -/
def orElseO {α : Type} (a b : Option α) : Option α :=
  match a with
  | some x => some x
  | none => b

/-- The effect of one entry on the metadata accumulator `currMeta`. -/
def currMetaStep (cm : MetricMetadata) : Entry → MetricMetadata
  | .entryType _ t => { cm with typ := t }
  | .entryHelp n h => { cm with metric := n, help := h }
  | _ => cm

/-- The registry writes a list of decoded entries performs at a given
reference, later writes taking precedence. -/
def regWrites : List Entry → Nat → Option Labels
  | [], _ => none
  | .entrySeries lset _ _ :: es, r =>
    orElseO (regWrites es r) (if r = seriesRef lset then some (labelsNew lset) else none)
  | .entryType _ _ :: es, r => regWrites es r
  | .entryHelp _ _ :: es, r => regWrites es r
  | .entryUnit :: es, r => regWrites es r
  | .entryComment :: es, r => regWrites es r
  | .entryHistogram :: es, r => regWrites es r

/-- The metadata-index writes a list of decoded entries performs at a given
key, starting from accumulator `cm`, later writes taking precedence. -/
def metaWrites (cm : MetricMetadata) : List Entry → String → Option MetricMetadata
  | [], _ => none
  | .entrySeries _ _ _ :: es, k =>
    orElseO (metaWrites cm es k) (if k = cm.metric then some cm else none)
  | .entryType n t :: es, k => metaWrites (currMetaStep cm (.entryType n t)) es k
  | .entryHelp n h :: es, k => metaWrites (currMetaStep cm (.entryHelp n h)) es k
  | .entryUnit :: es, k => metaWrites cm es k
  | .entryComment :: es, k => metaWrites cm es k
  | .entryHistogram :: es, k => metaWrites cm es k

/-- The samples a list of decoded entries appends to the batch, starting from
accumulator `cm`, in arrival order. -/
def batchWrites (regex : String → Bool) (now : Int) (cm : MetricMetadata) :
    List Entry → List RefSample
  | [] => []
  | .entrySeries lset pts v :: es =>
    (if acceptSample regex cm.metric (labelsNew lset) v then
        [⟨seriesRef lset, v, pts.getD now⟩]
      else []) ++ batchWrites regex now cm es
  | .entryType n t :: es => batchWrites regex now (currMetaStep cm (.entryType n t)) es
  | .entryHelp n h :: es => batchWrites regex now (currMetaStep cm (.entryHelp n h)) es
  | .entryUnit :: es => batchWrites regex now cm es
  | .entryComment :: es => batchWrites regex now cm es
  | .entryHistogram :: es => batchWrites regex now cm es

/-- The batch component of a `ProcessBody` return value (empty on error,
mirroring the `nil` slice the Go function returns with an error). -/
def resultBatch
    (x : Except String (List RefSample × (String → Option MetricMetadata))) :
    List RefSample :=
  match x with
  | .ok p => p.1
  | .error _ => []

/-- The metadata index of a `ProcessBody` return value, looked up at a metric
name (`nil` map on error). -/
def resultMetaAt
    (x : Except String (List RefSample × (String → Option MetricMetadata)))
    (k : String) : Option MetricMetadata :=
  match x with
  | .ok p => p.2 k
  | .error _ => none

/-- The outcome of `s.client.Get` plus body read, as observed by
`scrapeAndExport`: a transport failure, or a response with its status code and
the body-read outcome (`none` models an `io.ReadAll` error, otherwise the
parser-facing content of the body). -/
inductive FetchResult where
  | failure
  | response (status : Nat) (body : Option ParseInput)
deriving DecidableEq

/-- `Scraper.scrapeAndExport` (scraper.go lines 103–134): one fetch/parse/
filter/export cycle. Returns the cycle's error (or the exported batch and
metadata index) together with the scraper's registry after the cycle. -/
def scrapeAndExport (regex : String → Bool) (now : Int) (reg : Nat → Option Labels)
    (fr : FetchResult) :
    Except String (List RefSample × (String → Option MetricMetadata)) × (Nat → Option Labels) :=
  match fr with
  | .failure => (.error "failed to fetch Prometheus metrics", reg)
  | .response status body =>
    if status ≠ 200 then (.error "prometheus responded with non-OK status", reg)
    else
      match body with
      | none => (.error "failed to read response body", reg)
      | some input =>
        match ProcessBody regex now reg input with
        | (.error e, reg') => (.error ("failed to process scraped body: " ++ e), reg')
        | (.ok res, reg') => (.ok res, reg')

/-- An event observed by `Run`'s select loop: the cancellation signal firing
(`ctx.Done()`), or a tick with the fetch outcome and wall-clock time of the
cycle it triggers. -/
inductive SchedEvent where
  | cancel
  | tick (fr : FetchResult) (now : Int)
deriving DecidableEq

/-- The scheduler's observable state: whether `Run` has returned, plus the
scraper's registry. -/
structure SchedState where
  stopped : Bool
  reg : Nat → Option Labels

/-- One iteration of `Run`'s select loop (scraper.go lines 89–99): the
cancellation signal returns from the loop; a tick runs `scrapeAndExport` and,
whatever its error result, only logs it and stays in the loop. -/
def schedStep (regex : String → Bool) (st : SchedState) (ev : SchedEvent) : SchedState :=
  if st.stopped then st
  else
    match ev with
    | .cancel => { st with stopped := true }
    | .tick fr now => { st with reg := (scrapeAndExport regex now st.reg fr).2 }

/-- `Scraper.Run` over a finite sequence of observed events, started in the
not-yet-stopped state. -/
def runScheduler (regex : String → Bool) (reg0 : Nat → Option Labels)
    (evs : List SchedEvent) : SchedState :=
  evs.foldl (schedStep regex) ⟨false, reg0⟩

theorem orElseO_none_right {α : Type} (a : Option α) : orElseO a none = a := by
  cases a <;> rfl

theorem orElseO_assoc {α : Type} (a b c : Option α) :
    orElseO (orElseO a b) c = orElseO a (orElseO b c) := by
  cases a <;> rfl

theorem procEntry_currMeta (regex : String → Bool) (now : Int) (st : PState) (e : Entry) :
    (procEntry regex now st e).currMeta = currMetaStep st.currMeta e := by
  cases e with
  | entrySeries lset pts v =>
    simp only [procEntry, currMetaStep]
    split <;> rfl
  | _ => rfl

theorem procEntry_series_batch (regex : String → Bool) (now : Int) (st : PState)
    (lset : Labels) (pts : Option Int) (v : Rat) :
    (procEntry regex now st (.entrySeries lset pts v)).batch =
      if acceptSample regex st.currMeta.metric (labelsNew lset) v then
        st.batch ++ [⟨seriesRef lset, v, pts.getD now⟩]
      else st.batch := by
  simp only [procEntry, seriesRef]
  split <;> rfl

theorem procEntry_series_labelsByRef (regex : String → Bool) (now : Int) (st : PState)
    (lset : Labels) (pts : Option Int) (v : Rat) :
    (procEntry regex now st (.entrySeries lset pts v)).labelsByRef =
      fun r => if r = seriesRef lset then some (labelsNew lset) else st.labelsByRef r := by
  simp only [procEntry, seriesRef]
  split <;> rfl

theorem procEntry_series_metadata (regex : String → Bool) (now : Int) (st : PState)
    (lset : Labels) (pts : Option Int) (v : Rat) :
    (procEntry regex now st (.entrySeries lset pts v)).metadata =
      fun k => if k = st.currMeta.metric then some st.currMeta else st.metadata k := by
  simp only [procEntry]
  split <;> rfl

theorem procEntry_nonseries_batch (regex : String → Bool) (now : Int) (st : PState)
    (e : Entry) (h : e.isSeries = false) :
    (procEntry regex now st e).batch = st.batch := by
  cases e <;> first | rfl | simp [Entry.isSeries] at h

theorem procEntry_nonseries_metadata (regex : String → Bool) (now : Int) (st : PState)
    (e : Entry) (h : e.isSeries = false) :
    (procEntry regex now st e).metadata = st.metadata := by
  cases e <;> first | rfl | simp [Entry.isSeries] at h

theorem procEntry_nonseries_labelsByRef (regex : String → Bool) (now : Int) (st : PState)
    (e : Entry) (h : e.isSeries = false) :
    (procEntry regex now st e).labelsByRef = st.labelsByRef := by
  cases e <;> first | rfl | simp [Entry.isSeries] at h

theorem processLoop_eq_processEntries (regex : String → Bool) (now : Int) :
    ∀ (stream : List (Option Entry)) (st : PState),
      processLoop regex now st stream = processEntries regex now st (decodedEntries stream) := by
  intro stream
  induction stream with
  | nil => intro st; rfl
  | cons o rest ih =>
    intro st
    cases o with
    | none => rfl
    | some e => simp only [processLoop, decodedEntries, processEntries, ih]

theorem processEntries_labelsByRef (regex : String → Bool) (now : Int) :
    ∀ (es : List Entry) (st : PState) (r : Nat),
      (processEntries regex now st es).labelsByRef r =
        orElseO (regWrites es r) (st.labelsByRef r) := by
  intro es
  induction es with
  | nil => intro st r; simp [processEntries, regWrites, orElseO]
  | cons e es ih =>
    intro st r
    cases e with
    | entrySeries lset pts v =>
      show (processEntries regex now (procEntry regex now st (.entrySeries lset pts v)) es).labelsByRef r = _
      rw [ih, procEntry_series_labelsByRef]
      show orElseO (regWrites es r) _ =
        orElseO (orElseO (regWrites es r) (if r = seriesRef lset then some (labelsNew lset) else none))
          (st.labelsByRef r)
      rw [orElseO_assoc]
      by_cases hr : r = seriesRef lset <;> simp [hr, orElseO]
    | entryType n t =>
      show (processEntries regex now (procEntry regex now st (.entryType n t)) es).labelsByRef r = _
      rw [ih]; rfl
    | entryHelp n h =>
      show (processEntries regex now (procEntry regex now st (.entryHelp n h)) es).labelsByRef r = _
      rw [ih]; rfl
    | entryUnit =>
      show (processEntries regex now (procEntry regex now st .entryUnit) es).labelsByRef r = _
      rw [ih]; rfl
    | entryComment =>
      show (processEntries regex now (procEntry regex now st .entryComment) es).labelsByRef r = _
      rw [ih]; rfl
    | entryHistogram =>
      show (processEntries regex now (procEntry regex now st .entryHistogram) es).labelsByRef r = _
      rw [ih]; rfl

theorem processEntries_metadata (regex : String → Bool) (now : Int) :
    ∀ (es : List Entry) (st : PState) (k : String),
      (processEntries regex now st es).metadata k =
        orElseO (metaWrites st.currMeta es k) (st.metadata k) := by
  intro es
  induction es with
  | nil => intro st k; simp [processEntries, metaWrites, orElseO]
  | cons e es ih =>
    intro st k
    cases e with
    | entrySeries lset pts v =>
      show (processEntries regex now (procEntry regex now st (.entrySeries lset pts v)) es).metadata k = _
      rw [ih, procEntry_series_metadata, procEntry_currMeta]
      show orElseO (metaWrites st.currMeta es k) _ =
        orElseO (orElseO (metaWrites st.currMeta es k)
          (if k = st.currMeta.metric then some st.currMeta else none)) (st.metadata k)
      rw [orElseO_assoc]
      by_cases hk : k = st.currMeta.metric <;> simp [hk, orElseO]
    | entryType n t =>
      show (processEntries regex now (procEntry regex now st (.entryType n t)) es).metadata k = _
      rw [ih, procEntry_currMeta]; rfl
    | entryHelp n h =>
      show (processEntries regex now (procEntry regex now st (.entryHelp n h)) es).metadata k = _
      rw [ih, procEntry_currMeta]; rfl
    | entryUnit =>
      show (processEntries regex now (procEntry regex now st .entryUnit) es).metadata k = _
      rw [ih, procEntry_currMeta]; rfl
    | entryComment =>
      show (processEntries regex now (procEntry regex now st .entryComment) es).metadata k = _
      rw [ih, procEntry_currMeta]; rfl
    | entryHistogram =>
      show (processEntries regex now (procEntry regex now st .entryHistogram) es).metadata k = _
      rw [ih, procEntry_currMeta]; rfl

theorem processEntries_batch (regex : String → Bool) (now : Int) :
    ∀ (es : List Entry) (st : PState),
      (processEntries regex now st es).batch =
        st.batch ++ batchWrites regex now st.currMeta es := by
  intro es
  induction es with
  | nil => intro st; simp [processEntries, batchWrites]
  | cons e es ih =>
    intro st
    cases e with
    | entrySeries lset pts v =>
      show (processEntries regex now (procEntry regex now st (.entrySeries lset pts v)) es).batch = _
      rw [ih, procEntry_currMeta, procEntry_series_batch]
      show (if acceptSample regex st.currMeta.metric (labelsNew lset) v then
          st.batch ++ [⟨seriesRef lset, v, pts.getD now⟩] else st.batch) ++
          batchWrites regex now (currMetaStep st.currMeta (.entrySeries lset pts v)) es = _
      by_cases hc : acceptSample regex st.currMeta.metric (labelsNew lset) v <;>
        simp [hc, batchWrites, currMetaStep]
    | entryType n t =>
      show (processEntries regex now (procEntry regex now st (.entryType n t)) es).batch = _
      rw [ih, procEntry_currMeta]; rfl
    | entryHelp n h =>
      show (processEntries regex now (procEntry regex now st (.entryHelp n h)) es).batch = _
      rw [ih, procEntry_currMeta]; rfl
    | entryUnit =>
      show (processEntries regex now (procEntry regex now st .entryUnit) es).batch = _
      rw [ih, procEntry_currMeta]; rfl
    | entryComment =>
      show (processEntries regex now (procEntry regex now st .entryComment) es).batch = _
      rw [ih, procEntry_currMeta]; rfl
    | entryHistogram =>
      show (processEntries regex now (procEntry regex now st .entryHistogram) es).batch = _
      rw [ih, procEntry_currMeta]; rfl

theorem regWrites_eq_some :
    ∀ (es : List Entry) (r : Nat) (ls : Labels), regWrites es r = some ls →
      labelsHash ls = r ∧
        ∃ lset pts v, Entry.entrySeries lset pts v ∈ es ∧ ls = labelsNew lset := by
  intro es
  induction es with
  | nil => intro r ls hw; simp [regWrites] at hw
  | cons e es ih =>
    intro r ls
    cases e with
    | entrySeries lset pts v =>
      intro hw
      rw [regWrites] at hw
      cases hw0 : regWrites es r with
      | some ls' =>
        rw [hw0] at hw
        simp only [orElseO] at hw
        obtain ⟨h1, lset', pts', v', hm, h2⟩ := ih r ls' hw0
        cases hw
        exact ⟨h1, lset', pts', v', List.mem_cons_of_mem _ hm, h2⟩
      | none =>
        rw [hw0] at hw
        simp only [orElseO] at hw
        by_cases hr : r = seriesRef lset
        · rw [if_pos hr] at hw
          cases hw
          exact ⟨hr.symm, lset, pts, v, List.mem_cons_self _ _, rfl⟩
        · rw [if_neg hr] at hw
          cases hw
    | entryType n t =>
      intro hw
      rw [regWrites] at hw
      obtain ⟨h1, lset', pts', v', hm, h2⟩ := ih r ls hw
      exact ⟨h1, lset', pts', v', List.mem_cons_of_mem _ hm, h2⟩
    | entryHelp n ht =>
      intro hw
      rw [regWrites] at hw
      obtain ⟨h1, lset', pts', v', hm, h2⟩ := ih r ls hw
      exact ⟨h1, lset', pts', v', List.mem_cons_of_mem _ hm, h2⟩
    | entryUnit =>
      intro hw
      rw [regWrites] at hw
      obtain ⟨h1, lset', pts', v', hm, h2⟩ := ih r ls hw
      exact ⟨h1, lset', pts', v', List.mem_cons_of_mem _ hm, h2⟩
    | entryComment =>
      intro hw
      rw [regWrites] at hw
      obtain ⟨h1, lset', pts', v', hm, h2⟩ := ih r ls hw
      exact ⟨h1, lset', pts', v', List.mem_cons_of_mem _ hm, h2⟩
    | entryHistogram =>
      intro hw
      rw [regWrites] at hw
      obtain ⟨h1, lset', pts', v', hm, h2⟩ := ih r ls hw
      exact ⟨h1, lset', pts', v', List.mem_cons_of_mem _ hm, h2⟩

theorem regWrites_isSome_of_mem :
    ∀ (es : List Entry) (lset : Labels) (pts : Option Int) (v : Rat),
      Entry.entrySeries lset pts v ∈ es →
      ∃ ls, regWrites es (seriesRef lset) = some ls := by
  intro es
  induction es with
  | nil => intro lset pts v hmem; cases hmem
  | cons e es ih =>
    intro lset pts v hmem
    rcases List.mem_cons.mp hmem with heq | htl
    · cases heq
      rw [regWrites]
      cases hw : regWrites es (seriesRef lset) with
      | some ls' => exact ⟨ls', rfl⟩
      | none => exact ⟨labelsNew lset, by simp [orElseO]⟩
    · obtain ⟨ls, hls⟩ := ih lset pts v htl
      clear hmem
      cases e with
      | entrySeries lset' pts' v' => exact ⟨ls, by rw [regWrites, hls]; rfl⟩
      | entryType n t => exact ⟨ls, by rw [regWrites]; exact hls⟩
      | entryHelp n ht => exact ⟨ls, by rw [regWrites]; exact hls⟩
      | entryUnit => exact ⟨ls, by rw [regWrites]; exact hls⟩
      | entryComment => exact ⟨ls, by rw [regWrites]; exact hls⟩
      | entryHistogram => exact ⟨ls, by rw [regWrites]; exact hls⟩

theorem regWrites_of_consistent :
    ∀ (es : List Entry) (lset : Labels) (pts : Option Int) (v : Rat),
      Entry.entrySeries lset pts v ∈ es →
      (∀ lset' pts' v', Entry.entrySeries lset' pts' v' ∈ es →
        seriesRef lset' = seriesRef lset → labelsNew lset' = labelsNew lset) →
      regWrites es (seriesRef lset) = some (labelsNew lset) := by
  intro es
  induction es with
  | nil => intro lset pts v hmem; cases hmem
  | cons e es ih =>
    intro lset pts v hmem hcons
    have hconsTail : ∀ lset' pts' v', Entry.entrySeries lset' pts' v' ∈ es →
        seriesRef lset' = seriesRef lset → labelsNew lset' = labelsNew lset :=
      fun lset' pts' v' hm => hcons lset' pts' v' (List.mem_cons_of_mem _ hm)
    rcases List.mem_cons.mp hmem with heq | htl
    · cases heq
      rw [regWrites]
      cases hw : regWrites es (seriesRef lset) with
      | some ls' =>
        obtain ⟨h1, lset', pts', v', hm, h2⟩ := regWrites_eq_some es _ ls' hw
        have hr : seriesRef lset' = seriesRef lset := by
          rw [seriesRef, ← h2, h1]
        have hcv := hconsTail lset' pts' v' hm hr
        simp [orElseO, h2, hcv]
      | none => simp [orElseO]
    · clear hmem hcons
      cases e with
      | entrySeries lset' pts' v' =>
        rw [regWrites, ih lset pts v htl hconsTail]
        rfl
      | entryType n t => rw [regWrites]; exact ih lset pts v htl hconsTail
      | entryHelp n ht => rw [regWrites]; exact ih lset pts v htl hconsTail
      | entryUnit => rw [regWrites]; exact ih lset pts v htl hconsTail
      | entryComment => rw [regWrites]; exact ih lset pts v htl hconsTail
      | entryHistogram => rw [regWrites]; exact ih lset pts v htl hconsTail

theorem batchWrites_mem (regex : String → Bool) (now : Int) :
    ∀ (es : List Entry) (cm : MetricMetadata) (sample : RefSample),
      sample ∈ batchWrites regex now cm es →
      ∃ lset pts v, Entry.entrySeries lset pts v ∈ es ∧
        sample = ⟨seriesRef lset, v, pts.getD now⟩ := by
  intro es
  induction es with
  | nil => intro cm sample hmem; simp [batchWrites] at hmem
  | cons e es ih =>
    intro cm sample
    cases e with
    | entrySeries lset pts v =>
      intro hmem
      rw [batchWrites] at hmem
      rcases List.mem_append.mp hmem with hin | hin
      · refine ⟨lset, pts, v, List.mem_cons_self _ _, ?_⟩
        by_cases hc : acceptSample regex cm.metric (labelsNew lset) v
        · rw [if_pos hc] at hin
          exact List.mem_singleton.mp hin
        · rw [if_neg hc] at hin
          cases hin
      · obtain ⟨lset', pts', v', hm, he⟩ := ih cm sample hin
        exact ⟨lset', pts', v', List.mem_cons_of_mem _ hm, he⟩
    | entryType n t =>
      intro hmem
      rw [batchWrites] at hmem
      obtain ⟨lset', pts', v', hm, he⟩ := ih _ sample hmem
      exact ⟨lset', pts', v', List.mem_cons_of_mem _ hm, he⟩
    | entryHelp n ht =>
      intro hmem
      rw [batchWrites] at hmem
      obtain ⟨lset', pts', v', hm, he⟩ := ih _ sample hmem
      exact ⟨lset', pts', v', List.mem_cons_of_mem _ hm, he⟩
    | entryUnit =>
      intro hmem
      rw [batchWrites] at hmem
      obtain ⟨lset', pts', v', hm, he⟩ := ih _ sample hmem
      exact ⟨lset', pts', v', List.mem_cons_of_mem _ hm, he⟩
    | entryComment =>
      intro hmem
      rw [batchWrites] at hmem
      obtain ⟨lset', pts', v', hm, he⟩ := ih _ sample hmem
      exact ⟨lset', pts', v', List.mem_cons_of_mem _ hm, he⟩
    | entryHistogram =>
      intro hmem
      rw [batchWrites] at hmem
      obtain ⟨lset', pts', v', hm, he⟩ := ih _ sample hmem
      exact ⟨lset', pts', v', List.mem_cons_of_mem _ hm, he⟩

theorem labelsNew_eq_of_perm (l1 l2 : Labels) (h : l1.Perm l2) :
    labelsNew l1 = labelsNew l2 :=
  List.eq_of_perm_of_sorted
    (((List.perm_insertionSort labelLe l1).trans h).trans
      (List.perm_insertionSort labelLe l2).symm)
    (List.sorted_insertionSort labelLe l1)
    (List.sorted_insertionSort labelLe l2)

theorem acceptSample_eq_true_iff (regex : String → Bool) (m : String) (lset : Labels)
    (v : Rat) : acceptSample regex m lset v = true ↔ specAccept regex m lset v := by
  simp [acceptSample, specAccept, Bool.and_eq_true, Bool.not_eq_true',
    decide_eq_true_eq, and_assoc]

theorem foldl_schedStep_stopped (regex : String → Bool) :
    ∀ (evs : List SchedEvent) (st : SchedState),
      (evs.foldl (schedStep regex) st).stopped = true ↔
        (st.stopped = true ∨ SchedEvent.cancel ∈ evs) := by
  intro evs
  induction evs with
  | nil => intro st; simp
  | cons ev evs ih =>
    intro st
    rw [List.foldl_cons, ih]
    cases hst : st.stopped with
    | true =>
      have : schedStep regex st ev = st := by simp [schedStep, hst]
      simp [this, hst]
    | false =>
      cases ev with
      | cancel => simp [schedStep, hst, List.mem_cons]
      | tick fr now => simp [schedStep, hst, List.mem_cons]

/-- C1: a decoded SERIES entry is appended to the accepted batch iff all five
filter rules hold: the `name` label does not begin with `libops-`, the metric
name (the one the pipeline passes, `currMeta.Metric`) is not exactly
`container_tasks_state`, the value is strictly positive, the `name` label is
not exactly `cap`, and the configured pattern matches the rendering of the
label set. `specAccept` is the spec's wording of the five rules; the first
conjunct states the iff for every pipeline state and entry, the second that a
rejected entry leaves the batch unchanged, and the last two give the boundary:
a value of exactly 0 is excluded and a value of 0.0000001 is included, all
else equal. -/
theorem claim_C1 :
    (∀ (regex : String → Bool) (now : Int) (st : PState) (lset : Labels)
        (pts : Option Int) (v : Rat),
      ((procEntry regex now st (.entrySeries lset pts v)).batch =
          st.batch ++ [⟨seriesRef lset, v, pts.getD now⟩] ↔
        specAccept regex st.currMeta.metric (labelsNew lset) v) ∧
      ((procEntry regex now st (.entrySeries lset pts v)).batch = st.batch ↔
        ¬ specAccept regex st.currMeta.metric (labelsNew lset) v)) ∧
    resultBatch (ProcessBody (fun _ => true) 7 (fun _ => none)
        (some [some (.entrySeries [("name", "my-app")] none 0)])).1 = [] ∧
    resultBatch (ProcessBody (fun _ => true) 7 (fun _ => none)
        (some [some (.entrySeries [("name", "my-app")] none (1 / 10000000))])).1 =
      [⟨seriesRef [("name", "my-app")], 1 / 10000000, 7⟩] := by
  refine ⟨?_, by decide, ?_⟩
  · intro regex now st lset pts v
    have hb := procEntry_series_batch regex now st lset pts v
    have hlen : st.batch ++ [(⟨seriesRef lset, v, pts.getD now⟩ : RefSample)] ≠ st.batch := by
      intro hEq
      have hL := congrArg List.length hEq
      simp at hL
    by_cases hc : acceptSample regex st.currMeta.metric (labelsNew lset) v
    · have hs := (acceptSample_eq_true_iff regex st.currMeta.metric (labelsNew lset) v).mp hc
      rw [hb, if_pos hc]
      exact ⟨iff_of_true rfl hs, iff_of_false hlen (not_not_intro hs)⟩
    · have hs : ¬ specAccept regex st.currMeta.metric (labelsNew lset) v := fun hsp =>
        hc ((acceptSample_eq_true_iff regex st.currMeta.metric (labelsNew lset) v).mpr hsp)
      rw [hb, if_neg hc]
      exact ⟨iff_of_false (fun hEq => hlen hEq.symm) hs, iff_of_true rfl hs⟩
  · have hc : acceptSample (fun _ => true) initState.currMeta.metric
        (labelsNew [("name", "my-app")]) (1 / 10000000) = true :=
      (acceptSample_eq_true_iff _ _ _ _).mpr
        ⟨by decide, by decide, by norm_num, by decide, rfl⟩
    show (procEntry (fun _ => true) 7 initState
        (.entrySeries [("name", "my-app")] none (1 / 10000000))).batch = _
    rw [procEntry_series_batch, if_pos hc]
    rfl

/-- C2: series-reference assignment is deterministic and content-addressed:
two label lists that are permutations of each other (equal content, any
arrival order of the pairs) are assigned the same reference, and canonicalize
to the same stored label set — the reference depends only on the label-set
content. -/
theorem claim_C2 (l1 l2 : Labels) (h : l1.Perm l2) :
    seriesRef l1 = seriesRef l2 ∧ labelsNew l1 = labelsNew l2 := by
  have he := labelsNew_eq_of_perm l1 l2 h
  exact ⟨by rw [seriesRef, seriesRef, he], he⟩

theorem claim_C2_witness :
    seriesRef [("a", "1"), ("b", "2")] = seriesRef [("b", "2"), ("a", "1")] ∧
      labelsNew [("a", "1"), ("b", "2")] = labelsNew [("b", "2"), ("a", "1")] :=
  claim_C2 [("a", "1"), ("b", "2")] [("b", "2"), ("a", "1")] (by decide)

/-- C4: the pipeline returns a hard error iff the parser cannot be initialized
on the payload at all (first conjunct: the init-failure input yields exactly
that error; third conjunct: an error is returned for no other input); a
malformed entry mid-stream is not an error — the run returns, with no error,
the batch and metadata obtained by processing exactly the entries decoded
before the truncation point (second conjunct). -/
theorem claim_C4 :
    (∀ (regex : String → Bool) (now : Int) (oldReg : Nat → Option Labels),
      (ProcessBody regex now oldReg none).1 = .error "failed to initialize text parser") ∧
    (∀ (regex : String → Bool) (now : Int) (oldReg : Nat → Option Labels)
        (stream : List (Option Entry)),
      (ProcessBody regex now oldReg (some stream)).1 =
        .ok ((processEntries regex now initState (decodedEntries stream)).batch,
          (processEntries regex now initState (decodedEntries stream)).metadata)) ∧
    (∀ (regex : String → Bool) (now : Int) (oldReg : Nat → Option Labels)
        (input : ParseInput),
      (∃ msg, (ProcessBody regex now oldReg input).1 = .error msg) ↔ input = none) := by
  refine ⟨fun regex now oldReg => rfl, ?_, ?_⟩
  · intro regex now oldReg stream
    show (.ok ((processLoop regex now initState stream).batch,
      (processLoop regex now initState stream).metadata) : Except String _) = _
    rw [processLoop_eq_processEntries]
  · intro regex now oldReg input
    cases input with
    | none => exact ⟨fun _ => rfl, fun _ => ⟨"failed to initialize text parser", rfl⟩⟩
    | some stream =>
      constructor
      · rintro ⟨msg, hmsg⟩
        rw [show (ProcessBody regex now oldReg (some stream)).1 =
            .ok ((processLoop regex now initState stream).batch,
              (processLoop regex now initState stream).metadata) from rfl] at hmsg
        exact Except.noConfusion hmsg
      · intro hna
        exact Option.noConfusion hna

/-- C3: every sample of the returned batch was produced by a SERIES entry of
the run with matching reference, value and timestamp; its reference resolves
in the returned registry to a label set of the run hashing to that reference
(no batch entry carries an unresolvable reference), and whenever no two
series of the run collide on that reference, the lookup yields exactly the
canonical label set of the producing series. -/
theorem claim_C3 (regex : String → Bool) (now : Int) (oldReg : Nat → Option Labels)
    (stream : List (Option Entry)) (batch : List RefSample)
    (md : String → Option MetricMetadata) (reg : Nat → Option Labels)
    (sample : RefSample)
    (hrun : ProcessBody regex now oldReg (some stream) = (.ok (batch, md), reg))
    (hmem : sample ∈ batch) :
    ∃ lset pts v, Entry.entrySeries lset pts v ∈ decodedEntries stream ∧
      sample = ⟨seriesRef lset, v, pts.getD now⟩ ∧
      (∃ ls, reg sample.ref = some ls ∧ labelsHash ls = sample.ref ∧
        ∃ lset1 pts1 v1, Entry.entrySeries lset1 pts1 v1 ∈ decodedEntries stream ∧
          ls = labelsNew lset1) ∧
      ((∀ lset' pts' v', Entry.entrySeries lset' pts' v' ∈ decodedEntries stream →
          seriesRef lset' = seriesRef lset → labelsNew lset' = labelsNew lset) →
        reg sample.ref = some (labelsNew lset)) := by
  have hb : (processEntries regex now initState (decodedEntries stream)).batch = batch := by
    have hcb := congrArg (fun p => resultBatch p.1) hrun
    rw [← processLoop_eq_processEntries]
    exact hcb
  have hr : ∀ r, reg r = regWrites (decodedEntries stream) r := by
    intro r
    have hcr : (processLoop regex now initState stream).labelsByRef r = reg r :=
      congrArg (fun p => p.2 r) hrun
    rw [processLoop_eq_processEntries, processEntries_labelsByRef] at hcr
    have hcr' : orElseO (regWrites (decodedEntries stream) r) none = reg r := hcr
    rw [orElseO_none_right] at hcr'
    exact hcr'.symm
  rw [processEntries_batch] at hb
  have hmem' : sample ∈ batchWrites regex now initState.currMeta (decodedEntries stream) := by
    rw [show initState.batch ++ batchWrites regex now initState.currMeta (decodedEntries stream)
        = batchWrites regex now initState.currMeta (decodedEntries stream) from rfl] at hb
    rw [← hb] at hmem
    exact hmem
  obtain ⟨lset, pts, v, hsm, hse⟩ := batchWrites_mem regex now _ _ sample hmem'
  have href : sample.ref = seriesRef lset := by rw [hse]
  refine ⟨lset, pts, v, hsm, hse, ?_, ?_⟩
  · obtain ⟨ls, hls⟩ := regWrites_isSome_of_mem _ lset pts v hsm
    obtain ⟨h1, lset1, pts1, v1, hm1, h2⟩ := regWrites_eq_some _ _ ls hls
    exact ⟨ls, by rw [hr, href]; exact hls, by rw [href]; exact h1,
      lset1, pts1, v1, hm1, h2⟩
  · intro hcons
    rw [hr, href]
    exact regWrites_of_consistent _ lset pts v hsm hcons

theorem claim_C3_witness :
    ∃ lset pts v,
      Entry.entrySeries lset pts v ∈ decodedEntries
        [some (.entryHelp "m" "h"), some (.entrySeries [("name", "my-app")] none 5)] ∧
      (⟨seriesRef [("name", "my-app")], 5, 0⟩ : RefSample) =
        ⟨seriesRef lset, v, pts.getD 0⟩ ∧
      (∃ ls, (ProcessBody (fun _ => true) 0 (fun _ => none)
          (some [some (.entryHelp "m" "h"),
            some (.entrySeries [("name", "my-app")] none 5)])).2
          (⟨seriesRef [("name", "my-app")], 5, 0⟩ : RefSample).ref = some ls ∧
        labelsHash ls = (⟨seriesRef [("name", "my-app")], 5, 0⟩ : RefSample).ref ∧
        ∃ lset1 pts1 v1, Entry.entrySeries lset1 pts1 v1 ∈ decodedEntries
          [some (.entryHelp "m" "h"),
            some (.entrySeries [("name", "my-app")] none 5)] ∧
          ls = labelsNew lset1) ∧
      ((∀ lset' pts' v', Entry.entrySeries lset' pts' v' ∈ decodedEntries
          [some (.entryHelp "m" "h"),
            some (.entrySeries [("name", "my-app")] none 5)] →
          seriesRef lset' = seriesRef lset → labelsNew lset' = labelsNew lset) →
        (ProcessBody (fun _ => true) 0 (fun _ => none)
          (some [some (.entryHelp "m" "h"),
            some (.entrySeries [("name", "my-app")] none 5)])).2
          (⟨seriesRef [("name", "my-app")], 5, 0⟩ : RefSample).ref =
          some (labelsNew lset)) :=
  claim_C3 (fun _ => true) 0 (fun _ => none)
    [some (.entryHelp "m" "h"), some (.entrySeries [("name", "my-app")] none 5)]
    (resultBatch (ProcessBody (fun _ => true) 0 (fun _ => none)
      (some [some (.entryHelp "m" "h"),
        some (.entrySeries [("name", "my-app")] none 5)])).1)
    (fun k => resultMetaAt (ProcessBody (fun _ => true) 0 (fun _ => none)
      (some [some (.entryHelp "m" "h"),
        some (.entrySeries [("name", "my-app")] none 5)])).1 k)
    (ProcessBody (fun _ => true) 0 (fun _ => none)
      (some [some (.entryHelp "m" "h"),
        some (.entrySeries [("name", "my-app")] none 5)])).2
    ⟨seriesRef [("name", "my-app")], 5, 0⟩ rfl (by decide)

/-- C5 (counterexample): a payload consisting of a HELP entry and a TYPE entry
for metric `m`, with no SERIES entry, leaves the returned metadata index with
no entry for `m` at all — contradicting the claim that the index entry for a
metric name is (over)written each time a TYPE or HELP entry for that name is
seen. -/
theorem claim_C5_counterexample :
    resultMetaAt (ProcessBody (fun _ => true) 0 (fun _ => none)
        (some [some (.entryHelp "m" "h"), some (.entryType "m" "counter")])).1 "m" =
      none := by decide

/-- C5 (amended): the metadata index is written only when a SERIES entry is
processed: at each SERIES entry the entry for the currently tracked metric
name is overwritten with the accumulated HELP/TYPE metadata (first conjunct —
last write wins, and the write happens before the filter), HELP/TYPE entries
alone never write the index (second conjunct), and a metric whose only sample
is rejected by the filter (a `name="cap"` series) still has its HELP/TYPE
entry present while the batch stays empty (last two conjuncts). -/
theorem claim_C5 :
    (∀ (regex : String → Bool) (now : Int) (st : PState) (lset : Labels)
        (pts : Option Int) (v : Rat) (k : String),
      (procEntry regex now st (.entrySeries lset pts v)).metadata k =
        if k = st.currMeta.metric then some st.currMeta else st.metadata k) ∧
    (∀ (regex : String → Bool) (now : Int) (st : PState) (es : List Entry),
      (∀ e ∈ es, e.isSeries = false) →
      (processEntries regex now st es).metadata = st.metadata) ∧
    resultBatch (ProcessBody (fun _ => true) 0 (fun _ => none)
        (some [some (.entryHelp "container_cpu" "usage"),
          some (.entryType "container_cpu" "counter"),
          some (.entrySeries [("name", "cap")] none 100)])).1 = [] ∧
    resultMetaAt (ProcessBody (fun _ => true) 0 (fun _ => none)
        (some [some (.entryHelp "container_cpu" "usage"),
          some (.entryType "container_cpu" "counter"),
          some (.entrySeries [("name", "cap")] none 100)])).1 "container_cpu" =
      some ⟨"container_cpu", "counter", "usage"⟩ := by
  refine ⟨?_, ?_, by decide, by decide⟩
  · intro regex now st lset pts v k
    rw [procEntry_series_metadata]
  · intro regex now st es
    induction es generalizing st with
    | nil => intro _; rfl
    | cons e es ih =>
      intro hns
      have he := hns e (List.mem_cons_self e es)
      show (processEntries regex now (procEntry regex now st e) es).metadata = st.metadata
      rw [ih (procEntry regex now st e) (fun e' he' => hns e' (List.mem_cons_of_mem _ he'))]
      exact procEntry_nonseries_metadata regex now st e he

theorem claim_C5_witness :
    (processEntries (fun _ => true) 0 initState
      [Entry.entryHelp "m" "h", Entry.entryComment]).metadata = initState.metadata :=
  claim_C5.2.1 (fun _ => true) 0 initState [Entry.entryHelp "m" "h", Entry.entryComment]
    (by decide)

/-- C6: histogram entries are recognized but never decoded into samples: a
histogram entry leaves the pipeline state completely unchanged (first
conjunct), erasing all histogram entries from a payload changes nothing about
the run (second conjunct — in particular no histogram entry ever contributes
a batch entry), and a payload containing them still completes without an
error (third conjunct). The text parser has no separate summary entry kind,
so no summary entry can contribute either. -/
theorem claim_C6 :
    (∀ (regex : String → Bool) (now : Int) (st : PState),
      procEntry regex now st .entryHistogram = st) ∧
    (∀ (regex : String → Bool) (now : Int) (st : PState) (es : List Entry),
      processEntries regex now st (es.filter (fun e => !e.isHistogram)) =
        processEntries regex now st es) ∧
    (∀ (regex : String → Bool) (now : Int) (oldReg : Nat → Option Labels)
        (stream : List (Option Entry)),
      ∃ res, (ProcessBody regex now oldReg (some stream)).1 = .ok res) := by
  refine ⟨fun _ _ _ => rfl, ?_, fun regex now oldReg stream => ⟨_, rfl⟩⟩
  intro regex now st es
  induction es generalizing st with
  | nil => rfl
  | cons e es ih =>
    cases e with
    | entryHistogram =>
      show processEntries regex now st (List.filter (fun e => !e.isHistogram) es) =
        processEntries regex now st es
      exact ih st
    | entryType n t =>
      show processEntries regex now (procEntry regex now st (.entryType n t))
          (List.filter (fun e => !e.isHistogram) es) =
        processEntries regex now (procEntry regex now st (.entryType n t)) es
      exact ih _
    | entryHelp n h =>
      show processEntries regex now (procEntry regex now st (.entryHelp n h))
          (List.filter (fun e => !e.isHistogram) es) =
        processEntries regex now (procEntry regex now st (.entryHelp n h)) es
      exact ih _
    | entryUnit =>
      show processEntries regex now (procEntry regex now st .entryUnit)
          (List.filter (fun e => !e.isHistogram) es) =
        processEntries regex now (procEntry regex now st .entryUnit) es
      exact ih _
    | entryComment =>
      show processEntries regex now (procEntry regex now st .entryComment)
          (List.filter (fun e => !e.isHistogram) es) =
        processEntries regex now (procEntry regex now st .entryComment) es
      exact ih _
    | entrySeries lset pts v =>
      show processEntries regex now (procEntry regex now st (.entrySeries lset pts v))
          (List.filter (fun e => !e.isHistogram) es) =
        processEntries regex now (procEntry regex now st (.entrySeries lset pts v)) es
      exact ih _

/-- C7: the run of the pipeline on a payload is independent of the registry
contents left by earlier cycles (the registry is cleared before processing —
first conjunct), and every entry of the registry after the run is the
canonical label set of a SERIES entry decoded from this run's payload,
stored under its content hash (second conjunct): no cross-cycle reuse. -/
theorem claim_C7 (regex : String → Bool) (now : Int)
    (oldReg oldReg' : Nat → Option Labels) (stream : List (Option Entry)) :
    ProcessBody regex now oldReg (some stream) =
      ProcessBody regex now oldReg' (some stream) ∧
    (∀ r ls, (ProcessBody regex now oldReg (some stream)).2 r = some ls →
      ∃ lset pts v, Entry.entrySeries lset pts v ∈ decodedEntries stream ∧
        ls = labelsNew lset ∧ labelsHash ls = r) := by
  refine ⟨rfl, ?_⟩
  intro r ls hl
  rw [show (ProcessBody regex now oldReg (some stream)).2 r =
      (processLoop regex now initState stream).labelsByRef r from rfl,
    processLoop_eq_processEntries, processEntries_labelsByRef] at hl
  have hl' : orElseO (regWrites (decodedEntries stream) r) none = some ls := hl
  rw [orElseO_none_right] at hl'
  obtain ⟨h1, lset, pts, v, hm, h2⟩ := regWrites_eq_some _ r ls hl'
  exact ⟨lset, pts, v, hm, h2, h1⟩

theorem claim_C7_witness :
    ∃ lset pts v,
      Entry.entrySeries lset pts v ∈
        decodedEntries [some (.entrySeries [("n", "x")] none 1)] ∧
      labelsNew [("n", "x")] = labelsNew lset ∧
      labelsHash (labelsNew [("n", "x")]) = seriesRef [("n", "x")] :=
  (claim_C7 (fun _ => true) 0 (fun _ => none) (fun _ => none)
      [some (.entrySeries [("n", "x")] none 1)]).2
    (seriesRef [("n", "x")]) (labelsNew [("n", "x")]) (by decide)

/-- C8: a cycle-level failure never stops the scheduler and only cancellation
terminates it: the scheduler ends stopped iff a cancellation event occurred
(first conjunct); a tick — whatever its fetch outcome, including all failure
kinds — leaves it running (second conjunct); and a transport failure, a
non-200 status, a body-read failure and a parser-initialization failure each
produce a cycle error (remaining conjuncts) that, by the second conjunct, is
only logged. -/
theorem claim_C8 :
    (∀ (regex : String → Bool) (reg0 : Nat → Option Labels) (evs : List SchedEvent),
      (runScheduler regex reg0 evs).stopped = true ↔ SchedEvent.cancel ∈ evs) ∧
    (∀ (regex : String → Bool) (reg : Nat → Option Labels) (fr : FetchResult)
        (now : Int),
      (schedStep regex ⟨false, reg⟩ (.tick fr now)).stopped = false) ∧
    (∀ (regex : String → Bool) (reg : Nat → Option Labels) (now : Int),
      (scrapeAndExport regex now reg .failure).1 =
        .error "failed to fetch Prometheus metrics") ∧
    (∀ (regex : String → Bool) (reg : Nat → Option Labels) (now : Int)
        (status : Nat) (body : Option ParseInput), status ≠ 200 →
      (scrapeAndExport regex now reg (.response status body)).1 =
        .error "prometheus responded with non-OK status") ∧
    (∀ (regex : String → Bool) (reg : Nat → Option Labels) (now : Int),
      (scrapeAndExport regex now reg (.response 200 none)).1 =
        .error "failed to read response body") ∧
    (∀ (regex : String → Bool) (reg : Nat → Option Labels) (now : Int),
      (scrapeAndExport regex now reg (.response 200 (some none))).1 =
        .error ("failed to process scraped body: " ++
          "failed to initialize text parser")) := by
  refine ⟨?_, fun _ _ _ _ => rfl, fun _ _ _ => rfl, ?_, fun _ _ _ => rfl,
    fun _ _ _ => rfl⟩
  · intro regex reg0 evs
    rw [runScheduler, foldl_schedStep_stopped]
    simp
  · intro regex reg now status body hne
    show (if status ≠ 200 then
        ((.error "prometheus responded with non-OK status" :
          Except String (List RefSample × (String → Option MetricMetadata))), reg)
      else _).1 = _
    rw [if_pos hne]

theorem claim_C8_witness :
    ((runScheduler (fun _ => true) (fun _ => none)
        [SchedEvent.tick .failure 0, SchedEvent.cancel]).stopped = true) ∧
    (scrapeAndExport (fun _ => true) 0 (fun _ => none) (.response 500 none)).1 =
      .error "prometheus responded with non-OK status" :=
  ⟨(claim_C8.1 (fun _ => true) (fun _ => none)
      [SchedEvent.tick .failure 0, SchedEvent.cancel]).mpr (by decide),
    claim_C8.2.2.2.1 (fun _ => true) (fun _ => none) 0 500 none (by decide)⟩

/-- C9: the registry records every decoded SERIES entry, accepted or not:
for every series of the run, its reference resolves to some label set
(first conjunct), and to exactly that series' canonical label set whenever no
other series of the run collides on the reference (second conjunct) —
so the registry's domain covers all parsed series, not only accepted ones. -/
theorem claim_C9 (regex : String → Bool) (now : Int) (oldReg : Nat → Option Labels)
    (stream : List (Option Entry)) (lset : Labels) (pts : Option Int) (v : Rat)
    (hmem : Entry.entrySeries lset pts v ∈ decodedEntries stream) :
    (∃ ls, (ProcessBody regex now oldReg (some stream)).2 (seriesRef lset) = some ls) ∧
    ((∀ lset' pts' v', Entry.entrySeries lset' pts' v' ∈ decodedEntries stream →
        seriesRef lset' = seriesRef lset → labelsNew lset' = labelsNew lset) →
      (ProcessBody regex now oldReg (some stream)).2 (seriesRef lset) =
        some (labelsNew lset)) := by
  have hreg : ∀ r, (ProcessBody regex now oldReg (some stream)).2 r =
      regWrites (decodedEntries stream) r := by
    intro r
    rw [show (ProcessBody regex now oldReg (some stream)).2 r =
        (processLoop regex now initState stream).labelsByRef r from rfl,
      processLoop_eq_processEntries, processEntries_labelsByRef]
    exact orElseO_none_right _
  constructor
  · obtain ⟨ls, hls⟩ := regWrites_isSome_of_mem _ lset pts v hmem
    exact ⟨ls, by rw [hreg]; exact hls⟩
  · intro hcons
    rw [hreg]
    exact regWrites_of_consistent _ lset pts v hmem hcons

theorem claim_C9_witness :
    (∃ ls, (ProcessBody (fun _ => true) 0 (fun _ => none)
        (some [some (.entrySeries [("name", "cap")] none 5)])).2
        (seriesRef [("name", "cap")]) = some ls) ∧
      (ProcessBody (fun _ => true) 0 (fun _ => none)
        (some [some (.entrySeries [("name", "cap")] none 5)])).2
        (seriesRef [("name", "cap")]) = some (labelsNew [("name", "cap")]) := by
  have h := claim_C9 (fun _ => true) 0 (fun _ => none)
    [some (.entrySeries [("name", "cap")] none 5)] [("name", "cap")] none 5 (by decide)
  refine ⟨h.1, h.2 ?_⟩
  intro lset' pts' v' hm _
  have heq : Entry.entrySeries lset' pts' v' =
      Entry.entrySeries [("name", "cap")] none 5 := List.mem_singleton.mp hm
  injection heq with h1 h2 h3
  rw [h1]

/-- C10: a SERIES entry is indexed under the metric name of the most recent
HELP entry: a TYPE entry updates only the tracked type, never the tracked
metric name — its own metric name is discarded (first conjunct); a HELP entry
sets the tracked name and help (second conjunct); the index write at a SERIES
entry uses the tracked name (third conjunct); a series before any HELP entry
is recorded under the empty-string name, not its own `__name__` (fourth and
fifth conjuncts); and a TYPE line for metric `m2` following a HELP line for
`m1` attributes its type to `m1`, leaving no entry for `m2` (last two
conjuncts). -/
theorem claim_C10 :
    (∀ (regex : String → Bool) (now : Int) (st : PState) (n t : String),
      (procEntry regex now st (.entryType n t)).currMeta =
        ⟨st.currMeta.metric, t, st.currMeta.help⟩) ∧
    (∀ (regex : String → Bool) (now : Int) (st : PState) (n h : String),
      (procEntry regex now st (.entryHelp n h)).currMeta =
        ⟨n, st.currMeta.typ, h⟩) ∧
    (∀ (regex : String → Bool) (now : Int) (st : PState) (lset : Labels)
        (pts : Option Int) (v : Rat),
      (procEntry regex now st (.entrySeries lset pts v)).metadata
        st.currMeta.metric = some st.currMeta) ∧
    resultMetaAt (ProcessBody (fun _ => true) 0 (fun _ => none)
        (some [some (.entrySeries [("__name__", "m"), ("name", "a")] none 1)])).1 "" =
      some MetricMetadata.zero ∧
    resultMetaAt (ProcessBody (fun _ => true) 0 (fun _ => none)
        (some [some (.entrySeries [("__name__", "m"), ("name", "a")] none 1)])).1 "m" =
      none ∧
    resultMetaAt (ProcessBody (fun _ => true) 0 (fun _ => none)
        (some [some (.entryHelp "m1" "h1"), some (.entryType "m2" "gauge"),
          some (.entrySeries [("__name__", "m2"), ("name", "a")] none 1)])).1 "m1" =
      some ⟨"m1", "gauge", "h1"⟩ ∧
    resultMetaAt (ProcessBody (fun _ => true) 0 (fun _ => none)
        (some [some (.entryHelp "m1" "h1"), some (.entryType "m2" "gauge"),
          some (.entrySeries [("__name__", "m2"), ("name", "a")] none 1)])).1 "m2" =
      none := by
  refine ⟨fun _ _ _ _ _ => rfl, fun _ _ _ _ _ => rfl, ?_,
    by decide, by decide, by decide, by decide⟩
  intro regex now st lset pts v
  rw [procEntry_series_metadata]
  simp

end Cap
